import Mathlib

/-!
# Verification of the thematic/keyword detection and scoring engine

Shallow embedding of the analysis core of the `Analisis_Curricular`
repository, together with theorems settling the specification claims.

Sources embedded:
* `src/src/thematic_detector.py` — `ThematicDetector` (`_normalize_text`,
  `detect_in_text`, `detect_in_dataframe`, `analyze_programa`,
  `generate_thematic_matrix`);
* `src/src/analyzer.py` — `CurricularAnalyzer` (`_get_nivel_taxonomico`,
  `calcular_score_calidad`);
* `src/config.py` — `TAXONOMIA_BLOOM`, `QUALITY_WEIGHTS`, `validate_config`
  and the module-import behaviour around it;
* `src/analisis_tematico_avanzado.py` — diversity index of
  `analisis_cobertura_tematica`, similarity step of `analisis_mineria_texto`;
* `src/dashboard_tematico.py` — diversity index of `analizar_cobertura`.

Machine text is modelled as Lean `String`/`List Char`; `None`/`NaN` cells are
modelled as `Option String`; Python floats are modelled as `ℚ` where the code
is pure arithmetic and as `ℝ` where it takes logarithms; a float `NaN` result
is modelled as `none : Option ℝ`.
-/

namespace AnalisisCurricular

/-! ## Text normalisation — `ThematicDetector._normalize_text`
(src/src/thematic_detector.py lines 62–90)

The Python code runs `text.lower()` and then replaces each of
`á é í ó ú ñ ü` by its base letter.  `str.lower` is modelled on the
character range the repository works with: ASCII letters plus the uppercase
accented Spanish letters; every other character is left unchanged, matching
`str.lower` on that range. -/

/-- Apply a character-substitution table: the first matching key wins,
characters outside the table are unchanged. -/
def applyMap : List (Char × Char) → Char → Char
  | [], c => c
  | p :: rest, c => if c = p.1 then p.2 else applyMap rest c

/-- Python `str.lower` as a substitution table, restricted to ASCII letters
and the uppercase accented Spanish letters used by this repository. -/
def lowerPairs : List (Char × Char) :=
  [('A', 'a'), ('B', 'b'), ('C', 'c'), ('D', 'd'), ('E', 'e'), ('F', 'f'),
   ('G', 'g'), ('H', 'h'), ('I', 'i'), ('J', 'j'), ('K', 'k'), ('L', 'l'),
   ('M', 'm'), ('N', 'n'), ('O', 'o'), ('P', 'p'), ('Q', 'q'), ('R', 'r'),
   ('S', 's'), ('T', 't'), ('U', 'u'), ('V', 'v'), ('W', 'w'), ('X', 'x'),
   ('Y', 'y'), ('Z', 'z'),
   ('Á', 'á'), ('É', 'é'), ('Í', 'í'), ('Ó', 'ó'), ('Ú', 'ú'),
   ('Ñ', 'ñ'), ('Ü', 'ü')]

/-- Python `str.lower` on one character (modelled range: `lowerPairs`). -/
def pyLower (c : Char) : Char := applyMap lowerPairs c

/-- The `replacements` table of `_normalize_text`: strip the Spanish
diacritics (the table only lists lowercase letters; lowering runs first). -/
def accentPairs : List (Char × Char) :=
  [('á', 'a'), ('é', 'e'), ('í', 'i'), ('ó', 'o'), ('ú', 'u'),
   ('ñ', 'n'), ('ü', 'u')]

/-- One `text.replace(old, new)` pass of `_normalize_text` per character. -/
def stripAccent (c : Char) : Char := applyMap accentPairs c

/-- One character through `_normalize_text`: lower, then strip accents. -/
def normChar (c : Char) : Char := stripAccent (pyLower c)

/-- Model of `ThematicDetector._normalize_text`.  A missing (`NaN`/non-string) input
returns `""`; otherwise the text is lowercased and the accent table applied.
The code does not touch whitespace. -/
def normalizeText : Option String → String
  | none => ""
  | some s => ⟨s.data.map normChar⟩

/-! ## Keyword matching — `ThematicDetector.detect_in_text`
(src/src/thematic_detector.py lines 131–205)

For each keyword the code runs
`re.findall(r'\b' + re.escape(kw_normalized) + r'\w*', text_normalized)`.
`\w` is modelled on the ASCII range (letters, digits, underscore), which
covers normalised repository text.  `findAll kw text prevW` returns, in
order, the non-overlapping matched surface forms, where `prevW` says whether
the character just before `text` is a word character (`false` at the start
of the string). -/

/-- Python regex `\w` on the ASCII range. -/
def isWordChar (c : Char) : Bool :=
  ('a' ≤ c && c ≤ 'z') || ('A' ≤ c && c ≤ 'Z') || ('0' ≤ c && c ≤ '9') || c = '_'

/-- The scanning loop of `re.findall`, with explicit fuel (each step
consumes at least one character, so `text.length` fuel is enough; the fuel
keeps the recursion structural and hence kernel-evaluable). -/
def findAllAux (kw : List Char) : ℕ → List Char → Bool → List (List Char)
  | 0, _, _ => []
  | _, [], _ => []
  | fuel + 1, c :: rest, prevW =>
    if kw ≠ [] ∧ prevW ≠ isWordChar c ∧ kw <+: (c :: rest) then
      let after := (c :: rest).drop kw.length
      let run := after.takeWhile isWordChar
      (kw ++ run) :: findAllAux kw fuel (after.drop run.length)
        (isWordChar ((kw ++ run).getLastD ' '))
    else
      findAllAux kw fuel rest (isWordChar c)

/-- All non-overlapping matches of the pattern `\b kw \w*` in `text`,
scanned left to right, as Python `re.findall` produces them.  A match at a
position needs a word boundary there (`prevW` differs from the word-ness of
the first text character), the literal keyword, and then a maximal run of
word characters which is included in the matched surface form.  `prevW`
says whether the character before `text` is a word character (`false` at
the start of the string). -/
def findAll (kw text : List Char) (prevW : Bool) : List (List Char) :=
  findAllAux kw text.length text prevW

/-- Result record per theme, as built by `detect_in_text`
(the `contexto` field is presentation-only and is not modelled). -/
structure MatchResult where
  presente : Bool
  numCoincidencias : ℕ
  keywordsEncontradas : List String
  deriving Repr, DecidableEq

/-- The concatenation of the `re.findall` results over all keywords of one
theme (the `keywords_encontradas.extend(matches)` loop). -/
def themeForms (kws : List String) (textN : List Char) : List (List Char) :=
  kws.flatMap fun kw => findAll (normalizeText (some kw)).data textN false

/-- One theme through the body of `detect_in_text`: duplicates are removed
(`list(set(...))`) and the count is the number of distinct surface forms;
`presente` is `num_coincidencias > 0`.  (Python returns the distinct forms
sorted; the claims never inspect that order, so the dedup order is kept.) -/
def detectTheme (kws : List String) (textN : List Char) : MatchResult :=
  let distinct := (themeForms kws textN).dedup
  ⟨decide (0 < distinct.length), distinct.length, distinct.map fun l => ⟨l⟩⟩

/-- An absent-theme result: `presente=False, num_coincidencias=0`. -/
def emptyResult : MatchResult := ⟨false, 0, []⟩

/-- Model of `ThematicDetector.detect_in_text` over a configuration
`theme-id ↦ keyword list` (the `contexto_keywords` entries of `TEMATICAS`
are never read by the detector and are not modelled).  A `NaN` or empty
text yields the all-absent table. -/
def detectInText (cfg : List (String × List String)) :
    Option String → List (String × MatchResult)
  | none => cfg.map fun p => (p.1, emptyResult)
  | some s =>
    if s = "" then cfg.map fun p => (p.1, emptyResult)
    else cfg.map fun p => (p.1, detectTheme p.2 (normalizeText (some s)).data)

/-- Model of `ThematicDetector.__init__` (lines 48–60): the configuration is stored
as given; no validation of any kind is performed, so construction never
fails.  Modelled in `Except` to record that no error can be raised. -/
def initDetector (cfg : List (String × List String)) :
    Except String (List (String × List String)) := .ok cfg

/-! ## Corpus aggregation — `analyze_programa` / `generate_thematic_matrix`
(src/src/thematic_detector.py lines 207–408)

A program is its name plus the analysed text columns: the
`Redacción competencia` cell of each competency row and the
`Resultados Aprendizaje` cell of each learning-outcome row (these are the
columns `analyze_programa` passes to `detect_in_dataframe`). -/

structure ProgramaData where
  programa : String
  competencias : List (Option String)
  resultadosAprendizaje : List (Option String)

/-- Model of `concat_texts` of `detect_in_dataframe` for a single text column:
`" ".join` of the non-null cells, so `NaN ↦ ""` and `s ↦ s`. -/
def rowText : Option String → String
  | none => ""
  | some s => s

/-- Per-row detection in `detect_in_dataframe` (the concatenated text is
always a string, and `detect_in_text` itself turns `""` into all-absent). -/
def rowDetect (cfg : List (String × List String)) (v : Option String) :
    List (String × MatchResult) :=
  detectInText cfg (some (rowText v))

/-- The `{tematica}_presente` cell of one row. -/
def rowPresente (cfg : List (String × List String)) (t : String)
    (v : Option String) : Bool :=
  (((rowDetect cfg v).lookup t).getD emptyResult).presente

/-- The `{tematica}_coincidencias` cell of one row. -/
def rowCoincidencias (cfg : List (String × List String)) (t : String)
    (v : Option String) : ℕ :=
  (((rowDetect cfg v).lookup t).getD emptyResult).numCoincidencias

/-- Model of `df[f'{tematica}_presente'].sum()` over one table: the sum of the
boolean presence column (`True` counts as 1). -/
def freqPresente (cfg : List (String × List String)) (t : String)
    (rows : List (Option String)) : ℕ :=
  (rows.map fun v => if rowPresente cfg t v then 1 else 0).sum

/-- In `analyze_programa`, `total_coincidencias` of one theme =
`freq_comp + freq_ra`, where each summand is the sum of the *presence*
column of the corresponding table. -/
def totalCoincidencias (cfg : List (String × List String)) (t : String)
    (pd : ProgramaData) : ℕ :=
  freqPresente cfg t pd.competencias + freqPresente cfg t pd.resultadosAprendizaje

/-- One row of the matrix built by `generate_thematic_matrix`:
program name, table sizes, and one cell per theme. -/
structure MatrixRow where
  programa : String
  competencias : ℕ
  resultadosAprendizaje : ℕ
  celdas : List (String × ℕ)
  deriving Repr, DecidableEq

/-- The cell of a matrix row for one theme (0 if the theme is absent). -/
def MatrixRow.cell (r : MatrixRow) (t : String) : ℕ :=
  (r.celdas.lookup t).getD 0

/-- The row `generate_thematic_matrix` appends for one program: sizes of the
two tables plus `total_coincidencias` per theme of `analyze_programa`. -/
def analysisRow (cfg : List (String × List String)) (pd : ProgramaData) :
    MatrixRow :=
  ⟨pd.programa, pd.competencias.length, pd.resultadosAprendizaje.length,
    cfg.map fun p => (p.1, totalCoincidencias cfg p.1 pd)⟩

/-- Model of `generate_thematic_matrix`: one row per program, sorted by program name
(`df.sort_values('Programa')`), followed by the `TOTAL` row of column
sums. -/
def generateThematicMatrix (cfg : List (String × List String))
    (programas : List ProgramaData) : List MatrixRow :=
  let rows := programas.map (analysisRow cfg)
  let sorted := rows.insertionSort fun a b => a.programa ≤ b.programa
  let total : MatrixRow :=
    ⟨"TOTAL", (sorted.map (·.competencias)).sum,
      (sorted.map (·.resultadosAprendizaje)).sum,
      cfg.map fun p => (p.1, (sorted.map fun r => r.cell p.1).sum)⟩
  sorted ++ [total]

/-! ## Cognitive taxonomy — `CurricularAnalyzer._get_nivel_taxonomico`
(src/src/analyzer.py lines 124–162) and `TAXONOMIA_BLOOM`
(src/config.py lines 246–277). -/

/-- Model of `TAXONOMIA_BLOOM`: the six levels in insertion order, each with its
verb list. -/
def TAXONOMIA_BLOOM : List (String × ℕ × List String) :=
  [("RECORDAR", 1, ["definir", "listar", "recordar", "identificar", "nombrar",
      "reconocer", "reproducir", "seleccionar", "enumerar"]),
   ("COMPRENDER", 2, ["explicar", "describir", "interpretar", "resumir",
      "clasificar", "comparar", "ejemplificar", "parafrasear", "ilustrar"]),
   ("APLICAR", 3, ["aplicar", "ejecutar", "implementar", "usar", "utilizar",
      "demostrar", "resolver", "calcular", "operar"]),
   ("ANALIZAR", 4, ["analizar", "diferenciar", "organizar", "atribuir",
      "comparar", "contrastar", "examinar", "investigar", "categorizar"]),
   ("EVALUAR", 5, ["evaluar", "criticar", "juzgar", "verificar", "validar",
      "argumentar", "defender", "apoyar", "justificar"]),
   ("CREAR", 6, ["crear", "diseñar", "construir", "planificar", "producir",
      "generar", "desarrollar", "formular", "proponer"])]

/-- Python `str.lower` on a whole string (modelled range, see `pyLower`). -/
def strLower (s : String) : String := ⟨s.data.map pyLower⟩

/-- Python `str.strip()`: drop leading and trailing whitespace. -/
def pyStrip (s : String) : String :=
  ⟨((s.data.dropWhile (·.isWhitespace)).reverse.dropWhile (·.isWhitespace)).reverse⟩

/-- Python `needle in haystack` substring test. -/
def strContainsSub (hay needle : String) : Bool :=
  decide (needle.data <:+: hay.data)

/-- The taxonomy scan of `_get_nivel_taxonomico`: first level (in dict
insertion order) whose lowered verb list contains the lowered verb. -/
def lookupBloom (verboLower : String) : Option ℕ :=
  TAXONOMIA_BLOOM.findSome? fun e =>
    if verboLower ∈ e.2.2.map strLower then some e.2.1 else none

/-- Model of `CurricularAnalyzer._get_nivel_taxonomico`.  `NaN` verb ↦ level 1;
otherwise exact (lowered, stripped) verb lookup; otherwise the ordered
substring scan of the declared `nivel_dominio`; otherwise the default 2. -/
def getNivelTaxonomico (verbo : Option String) (nivelDominio : Option String) : ℕ :=
  match verbo with
  | none => 1
  | some v =>
    let vl := pyStrip (strLower v)
    match lookupBloom vl with
    | some lvl => lvl
    | none =>
      match nivelDominio with
      | none => 2
      | some nd =>
        let ns := strLower nd
        if strContainsSub ns "analisis" || strContainsSub ns "analis" then 4
        else if strContainsSub ns "evalua" || strContainsSub ns "critica" then 5
        else if strContainsSub ns "crea" || strContainsSub ns "diseña" then 6
        else if strContainsSub ns "aplic" then 3
        else if strContainsSub ns "comprend" || strContainsSub ns "entiend" then 2
        else 2

/-! ## Quality score — `CurricularAnalyzer.calcular_score_calidad`
(src/src/analyzer.py lines 374–411) and `QUALITY_WEIGHTS`
(src/config.py lines 287–294).

The five sub-indicator computations consume spreadsheet tables; the claim
is about the combination step, so the combiner is modelled as a function of
the five sub-indicator values the code reads
(`completitud_total`, `indice_complejidad`, `desviacion_estandar`,
`porcentaje_cobertura`, `num_estrategias_unicas`). -/

def QUALITY_WEIGHTS : List (String × ℚ) :=
  [("completitud", 25/100),
   ("complejidad_cognitiva", 20/100),
   ("balance_tipo_saber", 15/100),
   ("diversidad_metodologica", 15/100),
   ("cobertura_competencias", 15/100),
   ("calidad_redaccion", 10/100)]

/-- Lookup of `QUALITY_WEIGHTS[k]`. -/
def qw (k : String) : ℚ := (QUALITY_WEIGHTS.lookup k).getD 0

/-- The five sub-indicator values read by `calcular_score_calidad`. -/
structure Indicadores where
  completitudTotal : ℚ
  indiceComplejidad : ℚ
  desviacionEstandar : ℚ
  porcentajeCobertura : ℚ
  numEstrategiasUnicas : ℕ

/-- Python `max` on rationals, written as a conditional so that it
kernel-evaluates (equal to `max`, see `qmax_eq_max`). -/
def qmax (a b : ℚ) : ℚ := if a ≤ b then b else a

/-- Python `min` on rationals, kernel-evaluable (see `qmin_eq_min`). -/
def qmin (a b : ℚ) : ℚ := if a ≤ b then a else b

/-- Python `abs` on rationals, kernel-evaluable (see `qabs_eq_abs`). -/
def qabs (a : ℚ) : ℚ := if a < 0 then -a else a

/-- Model of `score_balance = max(0, min(100, 100 - desviacion*5))`. -/
def scoreBalance (d : ℚ) : ℚ := qmax 0 (qmin 100 (100 - d * 5))

/-- Model of `score_diversidad = min(100, num_estrategias_unicas * 8)` (the count
is injected into `ℚ` as `mkRat n 1`, kernel-evaluably). -/
def scoreDiversidad (n : ℕ) : ℚ := qmin 100 (mkRat n 1 * 8)

/-- Python 3 `round(x, 1)`: round to one decimal, ties to even.  (The
floor is written as `num / den` integer division — the floor of a rational
— to keep the definition kernel-evaluable.) -/
def pyRound1 (q : ℚ) : ℚ :=
  let x := q * 10
  let f : ℤ := x.num / (x.den : ℤ)
  let n : ℤ :=
    if x - mkRat f 1 < 1/2 then f
    else if 1/2 < x - mkRat f 1 then f + 1
    else if f % 2 = 0 then f else f + 1
  mkRat n 1 / 10

/-- Model of `calcular_score_calidad`: the weighted sum of the five computed
sub-indicator scores *plus* the fixed placeholder
`score_redaccion = 80.0` weighted by `calidad_redaccion`, rounded to one
decimal. -/
def calcularScoreCalidad (ind : Indicadores) : ℚ :=
  pyRound1
    (ind.completitudTotal * qw "completitud" +
     ind.indiceComplejidad * qw "complejidad_cognitiva" +
     scoreBalance ind.desviacionEstandar * qw "balance_tipo_saber" +
     scoreDiversidad ind.numEstrategiasUnicas * qw "diversidad_metodologica" +
     ind.porcentajeCobertura * qw "cobertura_competencias" +
     80 * qw "calidad_redaccion")

/-- The composite as the specification words it: a weighted sum of exactly
the five sub-indicators, using their configured weights.  (Spec-side
definition, kept to compare against `calcularScoreCalidad`.) -/
def specScoreFive (ind : Indicadores) : ℚ :=
  ind.completitudTotal * qw "completitud" +
  ind.indiceComplejidad * qw "complejidad_cognitiva" +
  qmax 0 (100 - ind.desviacionEstandar * 5) * qw "balance_tipo_saber" +
  scoreDiversidad ind.numEstrategiasUnicas * qw "diversidad_metodologica" +
  ind.porcentajeCobertura * qw "cobertura_competencias"

/-! ## Configuration validation — `validate_config` (src/config.py
lines 412–436) and the module-import wrapper (lines 432–436).

Only the weight-sum check is modelled; the directory checks probe the
filesystem and are outside the embedded core. -/

/-- The weight-sum check of `validate_config`: an error when the weights
miss 1.0 by more than 0.01. -/
def validateWeights (ws : List ℚ) : Except String Unit :=
  if 1/100 < qabs (ws.sum - 1) then
    .error "Los pesos de QUALITY_WEIGHTS deben sumar 1.0"
  else .ok ()

/-- The import-time wrapper: `try: validate_config() except ValueError as
e: print(f"ADVERTENCIA: {e}")`.  The first component records that the
module load completed (it always does); the second is the printed
warning, if any. -/
def importConfig (ws : List ℚ) : Bool × Option String :=
  match validateWeights ws with
  | .ok _ => (true, none)
  | .error e => (true, some ("ADVERTENCIA: " ++ e))

/-! ## Asignatura similarity — `analisis_mineria_texto`, step 3.3
(src/analisis_tematico_avanzado.py lines 529–564).

The TF-IDF vectors come from an external library; the repository's own
logic takes the cosine-similarity matrix, zeroes the diagonal
(`np.fill_diagonal`), and picks the entry at `np.argmax` (row-major first
maximum).  The matrix is the abstract input here; cosine similarity of
TF-IDF (non-negative) vectors is non-negative, which the theorem assumes
as a hypothesis. -/

/-- Model of `np.fill_diagonal(similitud_asignaturas, 0)`. -/
def zeroDiag (n : ℕ) (sim : Fin n → Fin n → ℚ) : Fin n → Fin n → ℚ :=
  fun i j => if i = j then 0 else sim i j

/-- All index pairs in row-major (flattened) order. -/
def allPairs (n : ℕ) : List (Fin n × Fin n) :=
  (List.finRange n).flatMap fun i => (List.finRange n).map fun j => (i, j)

/-- The flattened zeroed matrix, row-major. -/
def simValues (n : ℕ) (sim : Fin n → Fin n → ℚ) : List ℚ :=
  (allPairs n).map fun p => zeroDiag n sim p.1 p.2

/-- The value at `np.argmax` of the zeroed matrix (`argmax` returns the
first position of the maximum, and the code reads the matrix back at that
position, so the reported similarity is the matrix maximum). -/
def maxSimilitud (n : ℕ) (sim : Fin n → Fin n → ℚ) : ℚ :=
  (simValues n sim).foldr max 0

/-- Model of `np.unravel_index(argmax, shape)`: the first (row-major) pair attaining
the maximum. -/
def argmaxPair (n : ℕ) (sim : Fin n → Fin n → ℚ) : Option (Fin n × Fin n) :=
  (allPairs n).find? fun p => zeroDiag n sim p.1 p.2 = maxSimilitud n sim

/-- Step 3.3 of `analisis_mineria_texto`: similarity is computed only when
there are more than 2 asignaturas (`if len(df_por_asignatura) > 2`), and
the reported `par_mas_similar` is the names and value at the argmax of the
diagonal-zeroed matrix.  `none` = the "not computed" outcome. -/
def parMasSimilar (n : ℕ) (names : Fin n → String)
    (sim : Fin n → Fin n → ℚ) : Option (String × String × ℚ) :=
  if 2 < n then
    match argmaxPair n sim with
    | some p => some (names p.1, names p.2, zeroDiag n sim p.1 p.2)
    | none => none
  else none

/-! ## Thematic diversity index (Shannon entropy)

`analisis_cobertura_tematica` step 1.3 (src/analisis_tematico_avanzado.py
lines 329–344) and `analizar_cobertura` (src/dashboard_tematico.py lines
261–270).  Input: the values of the raw-tag `Counter` (each count is ≥ 1).
Both compute `entropy(freqs/sum, base=2) / log2(n) * 100`; the dashboard
version guards `len(counter) > 1` and defines the index as 0 otherwise,
while the batch version runs the division unguarded — for one distinct
tag that is `0.0/0.0`, a float NaN, modelled as `none`.  Real logarithms
make these definitions noncomputable; everything else in this file is
executable. -/

/-- The normalised tag distribution `frecuencias / frecuencias.sum()`. -/
noncomputable def probList (freqs : List ℕ) : List ℝ :=
  freqs.map fun f : ℕ => (f : ℝ) / (freqs.sum : ℝ)

/-- Model of `scipy.stats.entropy(probabilidades, base=2)` =
`Σ -p·log p / log 2`. -/
noncomputable def shannonEntropy2 (freqs : List ℕ) : ℝ :=
  ((probList freqs).map Real.negMulLog).sum / Real.log 2

/-- The diversity index of `dashboard_tematico.analizar_cobertura`:
guarded by `len(nucleos_counter) > 1`, else 0. -/
noncomputable def diversidadDashboard (freqs : List ℕ) : ℝ :=
  if 1 < freqs.length then
    shannonEntropy2 freqs / Real.logb 2 (freqs.length : ℝ) * 100
  else 0

/-- The diversity index of
`analisis_tematico_avanzado.analisis_cobertura_tematica`: the same
formula with no guard.  With fewer than 2 distinct tags the float
division is `0.0/0.0` (resp. of NaNs), i.e. NaN — modelled as `none`. -/
noncomputable def diversidadAvanzado (freqs : List ℕ) : Option ℝ :=
  if 1 < freqs.length then
    some (shannonEntropy2 freqs / Real.logb 2 (freqs.length : ℝ) * 100)
  else none

/-! ## Spec-side normaliser for the refinement comparison of C4

§4.1 of the specification asks, beyond lowering and accent-stripping, that
internal whitespace runs be collapsed to single spaces and ends trimmed.
This mirrors Python `" ".join(s.split())` on top of the code's own
character map. -/

/-- Collapse whitespace runs to single spaces and drop a trailing run
(the input is assumed stripped of leading whitespace); the flag records a
pending whitespace run. -/
def collapseWsGo : Bool → List Char → List Char
  | _, [] => []
  | pending, c :: rest =>
    if c.isWhitespace then collapseWsGo true rest
    else (if pending then [' ', c] else [c]) ++ collapseWsGo false rest

/-- The normaliser as §4.1 words it: the code's character map followed by
whitespace-run collapsing and trimming (Python `" ".join(s.split())`). -/
def specNormalizeText (t : Option String) : String :=
  ⟨collapseWsGo false ((normalizeText t).data.dropWhile (·.isWhitespace))⟩

/-- The fourteen accented characters the specification names. -/
def accentedChars : List Char :=
  ['á', 'é', 'í', 'ó', 'ú', 'ñ', 'ü', 'Á', 'É', 'Í', 'Ó', 'Ú', 'Ñ', 'Ü']

/-! # Helper lemmas -/

/-- Fact: `qmax` is `max`. -/
theorem qmax_eq_max (a b : ℚ) : qmax a b = max a b := (max_def a b).symm

/-- Fact: `qmin` is `min`. -/
theorem qmin_eq_min (a b : ℚ) : qmin a b = min a b := (min_def a b).symm

/-- Fact: `qabs` is `|·|`. -/
theorem qabs_eq_abs (a : ℚ) : qabs a = |a| := by
  unfold qabs
  split_ifs with h
  · exact (abs_of_neg h).symm
  · exact (abs_of_nonneg (le_of_not_lt h)).symm

/-- Lemma: `applyMap` either rewrites by a table entry or leaves the character
alone, and then the character matches no key. -/
theorem applyMap_cases (ps : List (Char × Char)) (c : Char) :
    (∃ p ∈ ps, applyMap ps c = p.2) ∨
      (applyMap ps c = c ∧ ∀ p ∈ ps, c ≠ p.1) := by
  induction ps with
  | nil => exact Or.inr ⟨rfl, by simp⟩
  | cons q rest ih =>
    by_cases hq : c = q.1
    · exact Or.inl ⟨q, by simp, by simp [applyMap, hq]⟩
    · rcases ih with ⟨p, hp, hv⟩ | ⟨hv, hk⟩
      · exact Or.inl ⟨p, by simp [hp], by simpa [applyMap, hq] using hv⟩
      · refine Or.inr ⟨by simpa [applyMap, hq] using hv, ?_⟩
        intro p hp
        rcases List.mem_cons.mp hp with rfl | hp
        · exact hq
        · exact hk p hp

/-- Lower-casing never produces an uppercase accented character. -/
theorem pyLower_not_upperAccent (c : Char) :
    pyLower c ∉ (['Á', 'É', 'Í', 'Ó', 'Ú', 'Ñ', 'Ü'] : List Char) := by
  unfold pyLower
  rcases applyMap_cases lowerPairs c with ⟨q, hq, hv⟩ | ⟨hv, hk⟩
  · rw [hv]
    fin_cases hq <;> decide
  · rw [hv]
    intro hm
    simp only [List.mem_cons, List.not_mem_nil, or_false] at hm
    rcases hm with h | h | h | h | h | h | h
    · exact hk ('Á', 'á') (by decide) h
    · exact hk ('É', 'é') (by decide) h
    · exact hk ('Í', 'í') (by decide) h
    · exact hk ('Ó', 'ó') (by decide) h
    · exact hk ('Ú', 'ú') (by decide) h
    · exact hk ('Ñ', 'ñ') (by decide) h
    · exact hk ('Ü', 'ü') (by decide) h

/-- The normalised form of a character is never one of the fourteen
accented characters. -/
theorem normChar_not_accented (c : Char) : normChar c ∉ accentedChars := by
  unfold normChar stripAccent
  rcases applyMap_cases accentPairs (pyLower c) with ⟨p, hp, hv⟩ | ⟨hv, hk⟩
  · rw [hv]
    fin_cases hp <;> decide
  · rw [hv]
    have hup := pyLower_not_upperAccent c
    intro hm
    simp only [accentedChars, List.mem_cons, List.not_mem_nil, or_false] at hm
    rcases hm with h | h | h | h | h | h | h | h | h | h | h | h | h | h
    · exact hk ('á', 'a') (by decide) h
    · exact hk ('é', 'e') (by decide) h
    · exact hk ('í', 'i') (by decide) h
    · exact hk ('ó', 'o') (by decide) h
    · exact hk ('ú', 'u') (by decide) h
    · exact hk ('ñ', 'n') (by decide) h
    · exact hk ('ü', 'u') (by decide) h
    · exact hup (by rw [h]; decide)
    · exact hup (by rw [h]; decide)
    · exact hup (by rw [h]; decide)
    · exact hup (by rw [h]; decide)
    · exact hup (by rw [h]; decide)
    · exact hup (by rw [h]; decide)
    · exact hup (by rw [h]; decide)

/-- Whitespace characters pass through the normaliser's character map
unchanged: `_normalize_text` touches no whitespace. -/
theorem normChar_whitespace (c : Char) (h : c.isWhitespace) : normChar c = c := by
  have : c = ' ' ∨ c = '\t' ∨ c = '\r' ∨ c = '\n' := by
    revert h
    unfold Char.isWhitespace
    intro h
    simp only [Bool.or_eq_true, decide_eq_true_eq] at h
    tauto
  rcases this with rfl | rfl | rfl | rfl <;> decide

/-- If the text is `a ++ kw ++ b` with a non-word (or absent) character at
the end of `a` and a word character starting `kw`, the scan finds at least
one match. -/
theorem findAllAux_ne_nil (kw : List Char) (hk : kw ≠ [])
    (hw : isWordChar (kw.headD ' ') = true) :
    ∀ (a b : List Char) (fuel : ℕ) (prevW : Bool),
      (a ++ (kw ++ b)).length ≤ fuel →
      (a = [] → prevW = false) →
      (∀ c, a.getLast? = some c → isWordChar c = false) →
      findAllAux kw fuel (a ++ (kw ++ b)) prevW ≠ [] := by
  intro a
  induction a with
  | nil =>
    intro b fuel prevW hfuel h1 h2
    obtain ⟨k0, kw', rfl⟩ : ∃ k0 kw', kw = k0 :: kw' := by
      cases kw with
      | nil => exact absurd rfl hk
      | cons x xs => exact ⟨x, xs, rfl⟩
    obtain ⟨f, rfl⟩ : ∃ f, fuel = f + 1 := by
      cases fuel with
      | zero => simp at hfuel
      | succ f => exact ⟨f, rfl⟩
    have hcond : (k0 :: kw') ≠ [] ∧ prevW ≠ isWordChar k0 ∧
        (k0 :: kw') <+: (k0 :: (kw' ++ b)) := by
      refine ⟨by simp, ?_, ⟨b, by simp⟩⟩
      have hk0 : isWordChar k0 = true := by simpa using hw
      rw [h1 rfl, hk0]
      simp
    simp only [List.nil_append, List.cons_append]
    rw [findAllAux]
    simp only [List.cons_append] at hcond
    rw [if_pos hcond]
    simp
  | cons c a' ih =>
    intro b fuel prevW hfuel h1 h2
    obtain ⟨f, rfl⟩ : ∃ f, fuel = f + 1 := by
      cases fuel with
      | zero => simp at hfuel
      | succ f => exact ⟨f, rfl⟩
    simp only [List.cons_append]
    rw [findAllAux]
    by_cases hcond : kw ≠ [] ∧ prevW ≠ isWordChar c ∧ kw <+: (c :: (a' ++ (kw ++ b)))
    · rw [if_pos hcond]
      simp
    · rw [if_neg hcond]
      apply ih b f (isWordChar c)
      · simp only [List.length_cons, List.length_append] at hfuel ⊢
        omega
      · intro ha'
        subst ha'
        exact h2 c rfl
      · intro d hd
        apply h2 d
        cases a' with
        | nil => simp at hd
        | cons x xs => rw [List.getLast?_cons_cons]; exact hd

/-! # Claim C4 -/

/--
Claim C4, counterexample.  The claim says the normaliser collapses internal
whitespace runs and trims; `_normalize_text` does neither: on the input
`"Uno  dos "` it keeps the double space and the trailing space, differing
from the spec-side normaliser.
-/
theorem C4_counterexample :
    normalizeText (some "Uno  dos ") = "uno  dos " ∧
      specNormalizeText (some "Uno  dos ") = "uno dos" ∧
      normalizeText (some "Uno  dos ") ≠ specNormalizeText (some "Uno  dos ") := by
  refine ⟨rfl, by decide, by decide⟩

/--
Claim C4, amended.  `_normalize_text` is a deterministic total function: a
missing/null input yields `""`; otherwise it maps each character through
lower-casing (covering ASCII and the accented Spanish uppercase letters)
followed by the diacritic-stripping table for the Spanish accented vowels
and ñ/ü, so no accented character survives; whitespace characters are
preserved verbatim (in particular runs are *not* collapsed and ends are
*not* trimmed, which is where the claim fails).
-/
theorem C4_normalize_amended :
    normalizeText none = "" ∧
      (∀ s : String, (normalizeText (some s)).data = s.data.map normChar) ∧
      (∀ c : Char, c.isWhitespace → normChar c = c) ∧
      (∀ p ∈ lowerPairs, pyLower p.1 = p.2) ∧
      (∀ p ∈ accentPairs, stripAccent p.1 = p.2) ∧
      (∀ (s : String) (c : Char),
        c ∈ (normalizeText (some s)).data → c ∉ accentedChars) := by
  refine ⟨rfl, fun s => rfl, normChar_whitespace, ?_, ?_, ?_⟩
  · intro p hp
    fin_cases hp <;> decide
  · intro p hp
    fin_cases hp <;> decide
  · intro s c hc
    have : c ∈ s.data.map normChar := hc
    rcases List.mem_map.mp this with ⟨d, -, rfl⟩
    exact normChar_not_accented d

/--
Claim C4, witness.  The amended theorem applied at concrete inputs: a space
is preserved, `'A'` is lowered, and no `'ñ'` survives in the normalisation
of `"Ñandú"`.
-/
theorem C4_witness :
    normChar ' ' = ' ' ∧ pyLower 'A' = 'a' ∧
      'ñ' ∉ (normalizeText (some "Ñandú")).data :=
  ⟨C4_normalize_amended.2.2.1 ' ' (by decide),
   C4_normalize_amended.2.2.2.1 ('A', 'a') (by decide),
   fun h => absurd (by decide : 'ñ' ∈ accentedChars)
     (C4_normalize_amended.2.2.2.2.2 "Ñandú" 'ñ' h)⟩

/-! # Claim C5 -/

/--
Claim C5, confirmed.  For a non-empty text: (i) the per-theme result built
from a theme's keyword list is in the `detect_in_text` output; (ii) if the
normalised text contains the normalised form of one of the theme's
keywords preceded by a word boundary (in particular, if the text contains
that exact keyword as a word), the theme is reported present with count at
least 1; (iii) the reported count is exactly the number of distinct
matched surface forms accumulated across all the theme's keywords
(duplicates across keywords collapse); (iv) `presente` holds iff the count
is positive.
-/
theorem C5_detect_matches (cfg : List (String × List String)) (t : String)
    (kws : List String) (s : String) (hmem : (t, kws) ∈ cfg) (hs : s ≠ "") :
    ((t, detectTheme kws (normalizeText (some s)).data) ∈ detectInText cfg (some s))
    ∧ (∀ kw ∈ kws, ∀ pre suf : List Char,
        (normalizeText (some kw)).data ≠ [] →
        isWordChar (((normalizeText (some kw)).data).headD ' ') = true →
        (normalizeText (some s)).data = pre ++ ((normalizeText (some kw)).data ++ suf) →
        (pre = [] ∨ ∃ d, pre.getLast? = some d ∧ isWordChar d = false) →
        (detectTheme kws (normalizeText (some s)).data).presente = true
        ∧ 1 ≤ (detectTheme kws (normalizeText (some s)).data).numCoincidencias)
    ∧ (detectTheme kws (normalizeText (some s)).data).numCoincidencias
        = (themeForms kws (normalizeText (some s)).data).toFinset.card
    ∧ ((detectTheme kws (normalizeText (some s)).data).presente = true
        ↔ 0 < (detectTheme kws (normalizeText (some s)).data).numCoincidencias) := by
  refine ⟨?_, ?_, ?_, ?_⟩
  · show (t, detectTheme kws (normalizeText (some s)).data) ∈ detectInText cfg (some s)
    simp only [detectInText]
    rw [if_neg hs]
    exact List.mem_map.mpr ⟨(t, kws), hmem, rfl⟩
  · intro kw hkw pre suf hne hword heq hbound
    set textN := (normalizeText (some s)).data with htext
    set kwN := (normalizeText (some kw)).data with hkwN
    have hfind : findAll kwN textN false ≠ [] := by
      rw [heq]
      apply findAllAux_ne_nil kwN hne hword pre suf _ false le_rfl
      · intro h
        rfl
      · intro c hc
        rcases hbound with rfl | ⟨d, hd, hdw⟩
        · simp at hc
        · rw [hd] at hc
          cases hc
          exact hdw
    obtain ⟨x, hx⟩ := List.exists_mem_of_ne_nil _ hfind
    have hxin : x ∈ themeForms kws textN :=
      List.mem_flatMap.mpr ⟨kw, hkw, hx⟩
    have hformsne : themeForms kws textN ≠ [] := List.ne_nil_of_mem hxin
    have hdedup : (themeForms kws textN).dedup ≠ [] := by
      simpa [List.dedup_eq_nil] using hformsne
    have hpos : 0 < (themeForms kws textN).dedup.length :=
      List.length_pos.mpr hdedup
    constructor
    · show decide (0 < (themeForms kws textN).dedup.length) = true
      exact decide_eq_true hpos
    · exact hpos
  · show (themeForms kws (normalizeText (some s)).data).dedup.length
        = (themeForms kws (normalizeText (some s)).data).toFinset.card
    exact (List.card_toFinset _).symm
  · constructor
    · intro h
      exact of_decide_eq_true h
    · intro h
      exact decide_eq_true h

/--
Claim C5, witness.  The theorem applied to the one-theme configuration
`[("T", ["sost"])]` and the text `"la Sostenibilidad"`: the normalised
text splits as `"la " ++ "sost" ++ "enibilidad"` with a space before the
keyword, and the theme is reported present with count 1.
-/
theorem C5_witness :
    (("T", detectTheme ["sost"] (normalizeText (some "la Sostenibilidad")).data)
        ∈ detectInText [("T", ["sost"])] (some "la Sostenibilidad"))
    ∧ (detectTheme ["sost"] (normalizeText (some "la Sostenibilidad")).data).presente = true := by
  have h := C5_detect_matches [("T", ["sost"])] "T" ["sost"] "la Sostenibilidad"
    (by decide) (by decide)
  refine ⟨h.1, ?_⟩
  exact (h.2.1 "sost" (by decide) "la ".data "enibilidad".data
    (by decide) (by decide) (by decide)
    (Or.inr ⟨' ', by decide, by decide⟩)).1

/-! # Claim C7 -/

/--
Claim C7, counterexample.  A dictionary containing a theme with an empty
keyword list is *not* rejected: `__init__` stores it unchanged (no error),
and the matcher runs against the theme, reporting it absent.
-/
theorem C7_counterexample :
    initDetector [("T", [])] = .ok [("T", [])]
    ∧ detectInText [("T", [])] (some "cualquier texto") = [("T", emptyResult)] := by
  exact ⟨rfl, by decide⟩

/--
Claim C7, amended.  Neither detector construction nor matching validates
keyword lists: `__init__` accepts any configuration unchanged, and for a
theme whose keyword list is empty `detect_in_text` silently reports
`present = False, count = 0` on every input (no error at load time or at
match time).
-/
theorem C7_empty_keywords_accepted (cfg : List (String × List String))
    (t : String) (s : Option String) (h : (t, ([] : List String)) ∈ cfg) :
    initDetector cfg = .ok cfg
    ∧ (t, emptyResult) ∈ detectInText cfg s := by
  refine ⟨rfl, ?_⟩
  match s with
  | none =>
    exact List.mem_map.mpr ⟨(t, []), h, rfl⟩
  | some str =>
    simp only [detectInText]
    by_cases hstr : str = ""
    · rw [if_pos hstr]
      exact List.mem_map.mpr ⟨(t, []), h, rfl⟩
    · rw [if_neg hstr]
      exact List.mem_map.mpr ⟨(t, []), h, rfl⟩

/--
Claim C7, witness.  The amended theorem at the concrete configuration
`[("T", [])]` and the text `"un texto"`.
-/
theorem C7_witness :
    initDetector [("T", [])] = .ok [("T", [])]
    ∧ ("T", emptyResult) ∈ detectInText [("T", [])] (some "un texto") :=
  C7_empty_keywords_accepted [("T", [])] "T" (some "un texto") (by decide)

/-! # Claim C1 -/

/-- Summing a 0/1 indicator column counts the rows satisfying the
predicate. -/
theorem sum_ite_eq_countP {α : Type} (l : List α) (p : α → Bool) :
    (l.map fun v => if p v then (1 : ℕ) else 0).sum = l.countP p := by
  induction l with
  | nil => simp
  | cons a rest ih =>
    simp only [List.map_cons, List.sum_cons, List.countP_cons, ih]
    cases h : p a
    · simp
    · simp
      omega

/-- Looking up a key in an association list whose values are a function of
the keys returns that function's value. -/
theorem lookup_map_fst {β γ : Type} (cfg : List (String × β)) (f : String → γ)
    (t : String) (h : t ∈ cfg.map Prod.fst) :
    (cfg.map fun p => (p.1, f p.1)).lookup t = some (f t) := by
  induction cfg with
  | nil => simp at h
  | cons q rest ih =>
    by_cases ht : t = q.1
    · subst ht
      simp [List.lookup]
    · have ht' : (t == q.1) = false := beq_eq_false_iff_ne.mpr ht
      simp only [List.map_cons, List.lookup, ht']
      apply ih
      simp only [List.map_cons, List.mem_cons] at h
      exact h.resolve_left ht

/--
Claim C1, counterexample.  One program with one competency record whose text
matches two distinct surface forms of the sustainability theme
(`"sostenibilidad ambiental"`): the record's `num_coincidencias` is 2, but
the matrix cell built by `generate_thematic_matrix` is 1 (the code sums the
boolean `_presente` column, not the `_coincidencias` column), so the cell
does not equal the sum of per-record match counts claimed.
-/
theorem C1_counterexample :
    ((generateThematicMatrix [("S", ["sostenibilidad", "ambiental"])]
        [⟨"P1", [some "sostenibilidad ambiental"], []⟩]).map
      fun r => r.cell "S") = [1, 1]
    ∧ rowCoincidencias [("S", ["sostenibilidad", "ambiental"])] "S"
        (some "sostenibilidad ambiental") = 2
    ∧ (analysisRow [("S", ["sostenibilidad", "ambiental"])]
        ⟨"P1", [some "sostenibilidad ambiental"], []⟩).cell "S"
      ≠ ([some "sostenibilidad ambiental"].map
          (rowCoincidencias [("S", ["sostenibilidad", "ambiental"])] "S")).sum := by
  refine ⟨by decide, by decide, by decide⟩

/--
Claim C1, amended.  Each cell of the matrix built by
`generate_thematic_matrix` equals the number of the program's records —
competencies plus learning outcomes — in which the theme is *present*
(its presence count, not the summed per-record match counts), and every
row of the matrix is either the `TOTAL` row or exactly the analysis row of
one of the input programs.  Cells are natural numbers, hence never
negative.
-/
theorem C1_matrix_cells (cfg : List (String × List String))
    (pd : ProgramaData) (t : String) :
    (t ∈ cfg.map Prod.fst →
      (analysisRow cfg pd).cell t
        = pd.competencias.countP (rowPresente cfg t)
          + pd.resultadosAprendizaje.countP (rowPresente cfg t))
    ∧ (∀ (progs : List ProgramaData) (r : MatrixRow),
        r ∈ generateThematicMatrix cfg progs →
        r.programa = "TOTAL" ∨ ∃ pd2 ∈ progs, r = analysisRow cfg pd2) := by
  constructor
  · intro ht
    show ((analysisRow cfg pd).celdas.lookup t).getD 0 = _
    have : (analysisRow cfg pd).celdas
        = cfg.map fun p => (p.1, totalCoincidencias cfg p.1 pd) := rfl
    rw [this, lookup_map_fst cfg (fun x => totalCoincidencias cfg x pd) t ht]
    show totalCoincidencias cfg t pd = _
    unfold totalCoincidencias freqPresente
    rw [sum_ite_eq_countP, sum_ite_eq_countP]
  · intro progs r hr
    simp only [generateThematicMatrix, List.mem_append, List.mem_singleton] at hr
    rcases hr with hr | hr
    · have hperm := List.perm_insertionSort
        (fun a b : MatrixRow => a.programa ≤ b.programa)
        (progs.map (analysisRow cfg))
      have : r ∈ progs.map (analysisRow cfg) := hperm.mem_iff.mp hr
      rcases List.mem_map.mp this with ⟨pd2, hpd2, rfl⟩
      exact Or.inr ⟨pd2, hpd2, rfl⟩
    · subst hr
      exact Or.inl rfl

/--
Claim C1, witness.  The amended theorem at the one-theme configuration and
one program used by the counterexample: the cell equals the presence count
(here 1), and the first matrix row is the program's analysis row.
-/
theorem C1_witness :
    (analysisRow [("S", ["sostenibilidad", "ambiental"])]
        ⟨"P1", [some "sostenibilidad ambiental"], []⟩).cell "S"
      = ([some "sostenibilidad ambiental"] : List (Option String)).countP
          (rowPresente [("S", ["sostenibilidad", "ambiental"])] "S")
        + ([] : List (Option String)).countP
            (rowPresente [("S", ["sostenibilidad", "ambiental"])] "S") := by
  have h := (C1_matrix_cells [("S", ["sostenibilidad", "ambiental"])]
    ⟨"P1", [some "sostenibilidad ambiental"], []⟩ "S").1 (by decide)
  exact h

/-! # Claim C2 -/

/--
Claim C2, counterexample.  With all five sub-indicator inputs making their
renormalised scores 0 (deviation 20 drives the balance score to 0), the
five-indicator weighted sum of the claim is 0, but
`calcular_score_calidad` returns 8: the code adds a sixth term, the fixed
placeholder `score_redaccion = 80.0` weighted by `calidad_redaccion =
0.10`.  Moreover the five weights the claim speaks of sum to 0.90, not
1.0 ± 0.01.
-/
theorem C2_counterexample :
    calcularScoreCalidad ⟨0, 0, 20, 0, 0⟩ = 8
    ∧ specScoreFive ⟨0, 0, 20, 0, 0⟩ = 0
    ∧ calcularScoreCalidad ⟨0, 0, 20, 0, 0⟩ ≠ specScoreFive ⟨0, 0, 20, 0, 0⟩
    ∧ qw "completitud" + qw "complejidad_cognitiva" + qw "balance_tipo_saber"
        + qw "diversidad_metodologica" + qw "cobertura_competencias" = 90/100
    ∧ ¬(qabs ((90 : ℚ)/100 - 1) ≤ 1/100) := by
  refine ⟨by with_unfolding_all decide, by with_unfolding_all decide,
    by with_unfolding_all decide, by with_unfolding_all decide,
    by with_unfolding_all decide⟩

/--
Claim C2, amended.  The composite quality score is the weighted sum of the
five renormalised sub-indicators *plus* a fixed placeholder
writing-quality score of 80 weighted at 0.10, rounded to one decimal; the
balance contribution is `max(0, 100 − deviation×5)` (the code's extra
`min 100` is inert for non-negative deviations, and a standard deviation
is non-negative); and the six weights together — not the five — sum
to 1.0.
-/
theorem C2_score_amended (ind : Indicadores) (hd : 0 ≤ ind.desviacionEstandar) :
    calcularScoreCalidad ind
      = pyRound1 (specScoreFive ind + 80 * qw "calidad_redaccion")
    ∧ (QUALITY_WEIGHTS.map Prod.snd).sum = 1
    ∧ 80 * qw "calidad_redaccion" = 8 := by
  refine ⟨?_, by with_unfolding_all decide, by with_unfolding_all decide⟩
  unfold calcularScoreCalidad specScoreFive scoreBalance
  have hmin : qmin 100 (100 - ind.desviacionEstandar * 5)
      = 100 - ind.desviacionEstandar * 5 := by
    unfold qmin
    split_ifs with h
    · linarith
    · rfl
  rw [hmin]

/--
Claim C2, witness.  The amended theorem at the sub-indicator values
`(90, 70, 4, 100, 12)` (deviation 4 ≥ 0).
-/
theorem C2_witness :
    calcularScoreCalidad ⟨90, 70, 4, 100, 12⟩
      = pyRound1 (specScoreFive ⟨90, 70, 4, 100, 12⟩ + 80 * qw "calidad_redaccion")
    ∧ (QUALITY_WEIGHTS.map Prod.snd).sum = 1
    ∧ 80 * qw "calidad_redaccion" = 8 :=
  C2_score_amended ⟨90, 70, 4, 100, 12⟩ (by with_unfolding_all decide)

/-! # Claim C6 -/

/--
Claim C6, counterexample.  A weight set summing to 0.95 *is* rejected by
`validate_config` with a descriptive error — but at module load the error
is caught (`try/except` around the import-time call) and only printed as a
warning, so the run proceeds: the configuration error does not block the
run, contrary to the second half of the claim.
-/
theorem C6_counterexample :
    validateWeights [95/100]
      = Except.error "Los pesos de QUALITY_WEIGHTS deben sumar 1.0"
    ∧ (importConfig [95/100]).1 = true
    ∧ importConfig [95/100]
      = (true, some "ADVERTENCIA: Los pesos de QUALITY_WEIGHTS deben sumar 1.0") := by
  refine ⟨by with_unfolding_all rfl, by with_unfolding_all rfl,
    by with_unfolding_all rfl⟩

/--
Claim C6, amended.  The `validate_config` weight check rejects any weight
set summing to 0.95 or 1.05 with a descriptive error and accepts any set
whose sum lies within 1.0 ± 0.005 (in particular 1.00 and the whole band
0.995–1.005, since the acceptance region is |sum − 1| ≤ 0.01); but the
import-time invocation catches the error and surfaces it only as a
printed `ADVERTENCIA` warning — the module load always completes, so the
run is not blocked.
-/
theorem C6_weights_amended :
    (∀ ws : List ℚ, ws.sum = 95/100 →
      validateWeights ws = Except.error "Los pesos de QUALITY_WEIGHTS deben sumar 1.0")
    ∧ (∀ ws : List ℚ, ws.sum = 105/100 →
      validateWeights ws = Except.error "Los pesos de QUALITY_WEIGHTS deben sumar 1.0")
    ∧ (∀ ws : List ℚ, |ws.sum - 1| ≤ 5/1000 → validateWeights ws = Except.ok ())
    ∧ (∀ ws : List ℚ, (importConfig ws).1 = true)
    ∧ (∀ (ws : List ℚ) (e : String), validateWeights ws = Except.error e →
        importConfig ws = (true, some ("ADVERTENCIA: " ++ e))) := by
  refine ⟨?_, ?_, ?_, ?_, ?_⟩
  · intro ws h
    unfold validateWeights
    rw [h]
    norm_num [qabs]
  · intro ws h
    unfold validateWeights
    rw [h]
    norm_num [qabs]
  · intro ws h
    unfold validateWeights
    rw [if_neg]
    rw [qabs_eq_abs]
    intro hlt
    linarith [h, hlt]
  · intro ws
    unfold importConfig
    cases validateWeights ws <;> rfl
  · intro ws e h
    unfold importConfig
    rw [h]

/--
Claim C6, witness.  The amended theorem applied at the concrete weight sets
`[0.95]`, `[1.05]`, the repository's own `QUALITY_WEIGHTS` values
(sum 1.00), and the set `[1.004]` inside the 0.995–1.005 band.
-/
theorem C6_witness :
    validateWeights [95/100]
      = Except.error "Los pesos de QUALITY_WEIGHTS deben sumar 1.0"
    ∧ validateWeights [105/100]
      = Except.error "Los pesos de QUALITY_WEIGHTS deben sumar 1.0"
    ∧ validateWeights (QUALITY_WEIGHTS.map Prod.snd) = Except.ok ()
    ∧ validateWeights [1004/1000] = Except.ok ()
    ∧ (importConfig [95/100]).1 = true :=
  ⟨C6_weights_amended.1 [95/100] (by with_unfolding_all decide),
   C6_weights_amended.2.1 [105/100] (by with_unfolding_all decide),
   C6_weights_amended.2.2.1 (QUALITY_WEIGHTS.map Prod.snd) (by with_unfolding_all decide),
   C6_weights_amended.2.2.1 [1004/1000] (by with_unfolding_all decide),
   C6_weights_amended.2.2.2.1 [95/100]⟩

/-! # Claim C8 -/

/--
Claim C8, confirmed.  Cognitive level resolution: (i) the verb `"evaluar"`
resolves to level 5 whatever the declared domain text (the taxonomy lookup
runs first); (ii) an unrecognised verb whose declared domain text carries a
creation signal (`'crea'` or `'diseña'` substring) and none of the
higher-priority analysis (`'analisis'`/`'analis'`) or evaluation
(`'evalua'`/`'critica'`) signals resolves to level 6; (iii) an
unrecognised verb with no usable declared-domain signal (a missing domain
text, or one matching none of the scanned substrings) resolves to the
default level 2.
-/
theorem C8_nivel_taxonomico :
    (∀ dom : Option String, getNivelTaxonomico (some "evaluar") dom = 5)
    ∧ (∀ v nd : String,
        lookupBloom (pyStrip (strLower v)) = none →
        (strContainsSub (strLower nd) "crea" = true
          ∨ strContainsSub (strLower nd) "diseña" = true) →
        strContainsSub (strLower nd) "analisis" = false →
        strContainsSub (strLower nd) "analis" = false →
        strContainsSub (strLower nd) "evalua" = false →
        strContainsSub (strLower nd) "critica" = false →
        getNivelTaxonomico (some v) (some nd) = 6)
    ∧ (∀ v : String, lookupBloom (pyStrip (strLower v)) = none →
        getNivelTaxonomico (some v) none = 2)
    ∧ (∀ v nd : String,
        lookupBloom (pyStrip (strLower v)) = none →
        strContainsSub (strLower nd) "analisis" = false →
        strContainsSub (strLower nd) "analis" = false →
        strContainsSub (strLower nd) "evalua" = false →
        strContainsSub (strLower nd) "critica" = false →
        strContainsSub (strLower nd) "crea" = false →
        strContainsSub (strLower nd) "diseña" = false →
        strContainsSub (strLower nd) "aplic" = false →
        strContainsSub (strLower nd) "comprend" = false →
        strContainsSub (strLower nd) "entiend" = false →
        getNivelTaxonomico (some v) (some nd) = 2) := by
  refine ⟨?_, ?_, ?_, ?_⟩
  · intro dom
    have h : lookupBloom (pyStrip (strLower "evaluar")) = some 5 := by decide
    simp only [getNivelTaxonomico, h]
  · intro v nd hlook hsig h1 h2 h3 h4
    simp only [getNivelTaxonomico, hlook, h1, h2, h3, h4, Bool.or_self,
      Bool.false_or, if_false]
    rcases hsig with h | h <;> simp [h]
  · intro v hlook
    simp only [getNivelTaxonomico, hlook]
  · intro v nd hlook h1 h2 h3 h4 h5 h6 h7 h8 h9
    simp [getNivelTaxonomico, hlook, h1, h2, h3, h4, h5, h6, h7, h8, h9]

/--
Claim C8, witness.  The theorem at the unrecognised verb `"programar"` and
the domain texts `"Diseñar productos"` (creation signal, level 6) and
`"ninguno"` (no signal, level 2), plus `"evaluar"` against a distracting
domain text.
-/
theorem C8_witness :
    getNivelTaxonomico (some "evaluar") (some "diseñar") = 5
    ∧ getNivelTaxonomico (some "programar") (some "Diseñar productos") = 6
    ∧ getNivelTaxonomico (some "programar") none = 2
    ∧ getNivelTaxonomico (some "programar") (some "ninguno") = 2 :=
  ⟨C8_nivel_taxonomico.1 (some "diseñar"),
   C8_nivel_taxonomico.2.1 "programar" "Diseñar productos" (by decide)
     (Or.inr (by decide)) (by decide) (by decide) (by decide) (by decide),
   C8_nivel_taxonomico.2.2.1 "programar" (by decide),
   C8_nivel_taxonomico.2.2.2 "programar" "ninguno" (by decide) (by decide)
     (by decide) (by decide) (by decide) (by decide) (by decide) (by decide)
     (by decide) (by decide)⟩

/-! # Claim C10 -/

/--
Claim C10, confirmed.  A missing (`NaN`) verb resolves to level 1
immediately — whatever the declared domain text says, even one carrying a
creation signal — while for an unrecognised (non-missing) verb with no
usable domain signal the documented default level 2 applies: missing and
unrecognised verbs are scored differently.
-/
theorem C10_missing_verb :
    (∀ dom : Option String, getNivelTaxonomico none dom = 1)
    ∧ getNivelTaxonomico none (some "diseñar") = 1
    ∧ getNivelTaxonomico (some "zzz") none = 2
    ∧ getNivelTaxonomico none none ≠ getNivelTaxonomico (some "zzz") none := by
  refine ⟨fun dom => rfl, rfl, ?_, ?_⟩
  · have h : lookupBloom (pyStrip (strLower "zzz")) = none := by decide
    simp only [getNivelTaxonomico, h]
  · have h : lookupBloom (pyStrip (strLower "zzz")) = none := by decide
    simp only [getNivelTaxonomico, h]
    decide

/-! # Claim C9 -/

/-- Every list element is bounded by `foldr max`. -/
theorem le_foldr_max {α : Type} [LinearOrder α] (l : List α) (a : α) :
    ∀ x ∈ l, x ≤ l.foldr max a := by
  induction l with
  | nil => simp
  | cons b rest ih =>
    intro x hx
    rcases List.mem_cons.mp hx with rfl | hx
    · exact le_max_left _ _
    · exact (ih x hx).trans (le_max_right _ _)

/-- Lemma: `foldr max` is the seed or one of the elements. -/
theorem foldr_max_mem {α : Type} [LinearOrder α] (l : List α) (a : α) :
    l.foldr max a = a ∨ l.foldr max a ∈ l := by
  induction l with
  | nil => exact Or.inl rfl
  | cons b rest ih =>
    simp only [List.foldr_cons]
    rcases max_cases b (rest.foldr max a) with ⟨h, -⟩ | ⟨h, -⟩
    · exact Or.inr (by simp [h])
    · rcases ih with h2 | h2
      · exact Or.inl (h.trans h2)
      · exact Or.inr (by simp [h, h2])

/-- Every index pair is listed in `allPairs`. -/
theorem mem_allPairs {n : ℕ} (i j : Fin n) : (i, j) ∈ allPairs n := by
  unfold allPairs
  exact List.mem_flatMap.mpr
    ⟨i, List.mem_finRange i, List.mem_map.mpr ⟨j, List.mem_finRange j, rfl⟩⟩

/--
Claim C9, confirmed.  For exactly 2 asignaturas the similarity step returns
the "not computed" outcome.  For 3 or more, if the cosine-similarity
matrix is entrywise non-negative (cosine similarity of non-negative TF-IDF
vectors always is), the reported most-similar pair's score equals the true
maximum off-diagonal entry of the matrix: it is attained at some
off-diagonal position, and it bounds every off-diagonal entry.
-/
theorem C9_similitud (names2 : Fin 2 → String) (sim2 : Fin 2 → Fin 2 → ℚ)
    (n : ℕ) (names : Fin n → String) (sim : Fin n → Fin n → ℚ)
    (hn : 2 < n) (hpos : ∀ i j, 0 ≤ sim i j) :
    parMasSimilar 2 names2 sim2 = none
    ∧ ∃ s : String × String × ℚ,
        parMasSimilar n names sim = some s
        ∧ (∃ i j : Fin n, i ≠ j ∧ sim i j = s.2.2)
        ∧ (∀ i j : Fin n, i ≠ j → sim i j ≤ s.2.2) := by
  constructor
  · rfl
  · have h0 : (0 : ℕ) < n := by omega
    have h1 : (1 : ℕ) < n := by omega
    let i0 : Fin n := ⟨0, h0⟩
    let i1 : Fin n := ⟨1, h1⟩
    set M := maxSimilitud n sim with hM
    -- the maximum is attained at some pair of the flattened zeroed matrix
    have hattain : ∃ p : Fin n × Fin n, zeroDiag n sim p.1 p.2 = M := by
      rcases foldr_max_mem (simValues n sim) 0 with h | h
      · exact ⟨(i0, i0), by simp [zeroDiag, hM, maxSimilitud, h]⟩
      · rcases List.mem_map.mp h with ⟨p, -, hp⟩
        exact ⟨p, hp⟩
    -- every entry of the zeroed matrix is bounded by the maximum
    have hbound : ∀ i j : Fin n, zeroDiag n sim i j ≤ M := by
      intro i j
      apply le_foldr_max (simValues n sim) 0
      exact List.mem_map.mpr ⟨(i, j), mem_allPairs i j, rfl⟩
    -- `find?` succeeds
    obtain ⟨q, hqfind⟩ : ∃ q, (allPairs n).find?
        (fun p => decide (zeroDiag n sim p.1 p.2 = M)) = some q := by
      rcases hattain with ⟨p, hp⟩
      have : ∃ x ∈ allPairs n,
          (fun p => decide (zeroDiag n sim p.1 p.2 = M)) x = true := by
        exact ⟨p, mem_allPairs p.1 p.2, by simp [hp]⟩
      rcases List.find?_isSome.mpr this |> Option.isSome_iff_exists.mp with ⟨q, hq⟩
      exact ⟨q, hq⟩
    have hqval : zeroDiag n sim q.1 q.2 = M := by
      have := List.find?_some hqfind
      simpa using this
    have hres : parMasSimilar n names sim
        = some (names q.1, names q.2, zeroDiag n sim q.1 q.2) := by
      unfold parMasSimilar argmaxPair
      rw [if_pos hn]
      rw [show maxSimilitud n sim = M from rfl]
      rw [hqfind]
    refine ⟨(names q.1, names q.2, zeroDiag n sim q.1 q.2), hres, ?_, ?_⟩
    · -- attained at an off-diagonal position
      by_cases hq : q.1 = q.2
      · -- the argmax sits on the (zeroed) diagonal, so the maximum is 0 and
        -- every off-diagonal entry is 0 as well
        have hM0 : zeroDiag n sim q.1 q.2 = 0 := by simp [zeroDiag, hq]
        have hMzero : M = 0 := hqval.symm.trans hM0
        have hne : i0 ≠ i1 := by simp [i0, i1, Fin.ext_iff]
        refine ⟨i0, i1, hne, ?_⟩
        have hle : sim i0 i1 ≤ M := by
          have hb := hbound i0 i1
          simpa [zeroDiag, hne] using hb
        rw [hM0]
        exact le_antisymm (hMzero ▸ hle) (hpos i0 i1)
      · exact ⟨q.1, q.2, hq, by simp [zeroDiag, hq]⟩
    · intro i j hij
      have hb := hbound i j
      show sim i j ≤ zeroDiag n sim q.1 q.2
      rw [hqval]
      simpa [zeroDiag, hij] using hb

/--
Claim C9, witness.  The theorem at a concrete 3×3 all-ones matrix (and a
2-asignatura instance, where no result is produced).
-/
theorem C9_witness :
    parMasSimilar 2 (fun _ => "A") (fun _ _ => (1 : ℚ)) = none
    ∧ ∃ s : String × String × ℚ,
        parMasSimilar 3 (fun _ => "B") (fun _ _ => (1 : ℚ)) = some s
        ∧ (∃ i j : Fin 3, i ≠ j ∧ (1 : ℚ) = s.2.2)
        ∧ (∀ i j : Fin 3, i ≠ j → (1 : ℚ) ≤ s.2.2) :=
  C9_similitud (fun _ => "A") (fun _ _ => (1 : ℚ)) 3 (fun _ => "B")
    (fun _ _ => (1 : ℚ)) (by omega) (fun _ _ => by norm_num)

/-! # Claim C3 -/

/-- Pointwise-added maps sum separately. -/
theorem list_sum_map_add {α : Type} (l : List α) (f g : α → ℝ) :
    (l.map fun x => f x + g x).sum = (l.map f).sum + (l.map g).sum := by
  induction l with
  | nil => simp
  | cons a rest ih =>
    simp only [List.map_cons, List.sum_cons, ih]
    ring

/-- Pointwise-subtracted maps sum separately. -/
theorem list_sum_map_sub {α : Type} (l : List α) (f g : α → ℝ) :
    (l.map fun x => f x - g x).sum = (l.map f).sum - (l.map g).sum := by
  induction l with
  | nil => simp
  | cons a rest ih =>
    simp only [List.map_cons, List.sum_cons, ih]
    ring

/-- A constant map sums to length times the constant. -/
theorem list_sum_map_const {α : Type} (l : List α) (c : ℝ) :
    (l.map fun _ => c).sum = (l.length : ℝ) * c := by
  induction l with
  | nil => simp
  | cons a rest ih =>
    simp only [List.map_cons, List.sum_cons, ih, List.length_cons]
    push_cast
    ring

/-- Casts and a common denominator move through a list sum. -/
theorem sum_div_list (m : List ℕ) (S : ℝ) :
    (m.map fun f : ℕ => (f : ℝ) / S).sum = (m.sum : ℝ) / S := by
  induction m with
  | nil => simp
  | cons a rest ih =>
    simp only [List.map_cons, List.sum_cons, ih]
    push_cast
    ring

/-- The normalised tag frequencies sum to 1. -/
theorem sum_probList (l : List ℕ) (hS : (0 : ℝ) < (l.sum : ℝ)) :
    (l.map fun f : ℕ => (f : ℝ) / (l.sum : ℝ)).sum = 1 := by
  rw [sum_div_list]
  exact div_self (ne_of_gt hS)

/-- The algebraic identity behind the termwise Gibbs bound. -/
theorem gibbs_term_id (S n fv : ℝ) (hS : S ≠ 0) (hn : n ≠ 0) (hf : fv ≠ 0) :
    fv / S * ((n * (fv / S))⁻¹ - 1) = 1 / n - fv / S := by
  field_simp
  ring

/-- Gibbs' inequality over a frequency list: the entropy of the normalised
distribution is at most `log` of the number of classes, with equality only
when all frequencies are equal. -/
theorem gibbs_list (l : List ℕ) (hpos : ∀ f ∈ l, 0 < f) (hn : 2 ≤ l.length) :
    (l.map fun f : ℕ => Real.negMulLog ((f : ℝ) / (l.sum : ℝ))).sum
      ≤ Real.log (l.length : ℝ)
    ∧ ((l.map fun f : ℕ => Real.negMulLog ((f : ℝ) / (l.sum : ℝ))).sum
          = Real.log (l.length : ℝ) →
        ∀ a ∈ l, (a : ℝ) * (l.length : ℝ) = (l.sum : ℝ)) := by
  have hne : l ≠ [] := by
    intro h
    rw [h] at hn
    simp at hn
  have hSpos : (0 : ℝ) < (l.sum : ℝ) := by
    have : 0 < l.sum := List.sum_pos l hpos hne
    exact_mod_cast this
  have hn1 : (1 : ℝ) < (l.length : ℝ) := by
    have : 1 < l.length := by omega
    exact_mod_cast this
  have hnpos : (0 : ℝ) < (l.length : ℝ) := by linarith
  have hp_pos : ∀ f ∈ l, (0 : ℝ) < (f : ℝ) / (l.sum : ℝ) := by
    intro f hf
    apply div_pos _ hSpos
    exact_mod_cast hpos f hf
  have hsum_p : (l.map fun f : ℕ => (f : ℝ) / (l.sum : ℝ)).sum = 1 :=
    sum_probList l hSpos
  -- each entropy term splits into the Gibbs term plus `p·log n`
  have hident : ∀ f ∈ l, Real.negMulLog ((f : ℝ) / (l.sum : ℝ))
      = (f : ℝ) / (l.sum : ℝ)
          * Real.log (((l.length : ℝ) * ((f : ℝ) / (l.sum : ℝ)))⁻¹)
        + (f : ℝ) / (l.sum : ℝ) * Real.log (l.length : ℝ) := by
    intro f hf
    have hpf := hp_pos f hf
    rw [Real.log_inv, Real.log_mul (ne_of_gt hnpos) (ne_of_gt hpf)]
    simp only [Real.negMulLog]
    ring
  -- the termwise Gibbs bound
  have hterm : ∀ f ∈ l,
      (f : ℝ) / (l.sum : ℝ)
          * Real.log (((l.length : ℝ) * ((f : ℝ) / (l.sum : ℝ)))⁻¹)
        ≤ 1 / (l.length : ℝ) - (f : ℝ) / (l.sum : ℝ) := by
    intro f hf
    have hpf := hp_pos f hf
    have hx : (0 : ℝ) < ((l.length : ℝ) * ((f : ℝ) / (l.sum : ℝ)))⁻¹ := by
      positivity
    have hlog := Real.log_le_sub_one_of_pos hx
    have h2 := mul_le_mul_of_nonneg_left hlog (le_of_lt hpf)
    have hfv : ((f : ℝ)) ≠ 0 := by
      have := hpos f hf
      positivity
    calc (f : ℝ) / (l.sum : ℝ)
          * Real.log (((l.length : ℝ) * ((f : ℝ) / (l.sum : ℝ)))⁻¹)
        ≤ (f : ℝ) / (l.sum : ℝ)
            * (((l.length : ℝ) * ((f : ℝ) / (l.sum : ℝ)))⁻¹ - 1) := h2
      _ = 1 / (l.length : ℝ) - (f : ℝ) / (l.sum : ℝ) :=
          gibbs_term_id _ _ _ (ne_of_gt hSpos) (ne_of_gt hnpos) hfv
  -- the bound terms sum to zero
  have hsum_rhs :
      (l.map fun f : ℕ => 1 / (l.length : ℝ) - (f : ℝ) / (l.sum : ℝ)).sum = 0 := by
    rw [list_sum_map_sub, list_sum_map_const, hsum_p]
    field_simp
  -- the entropy sum decomposes as the Gibbs sum plus `log n`
  have hdecomp : (l.map fun f : ℕ => Real.negMulLog ((f : ℝ) / (l.sum : ℝ))).sum
      = (l.map fun f : ℕ => (f : ℝ) / (l.sum : ℝ)
          * Real.log (((l.length : ℝ) * ((f : ℝ) / (l.sum : ℝ)))⁻¹)).sum
        + Real.log (l.length : ℝ) := by
    rw [List.map_congr_left hident, list_sum_map_add]
    congr 1
    rw [List.sum_map_mul_right, hsum_p, one_mul]
  have hgibbs_le : (l.map fun f : ℕ => (f : ℝ) / (l.sum : ℝ)
      * Real.log (((l.length : ℝ) * ((f : ℝ) / (l.sum : ℝ)))⁻¹)).sum ≤ 0 := by
    have := List.sum_le_sum hterm
    rw [hsum_rhs] at this
    exact this
  constructor
  · rw [hdecomp]
    linarith
  · intro hEq a ha
    have hgibbs0 : (l.map fun f : ℕ => (f : ℝ) / (l.sum : ℝ)
        * Real.log (((l.length : ℝ) * ((f : ℝ) / (l.sum : ℝ)))⁻¹)).sum = 0 := by
      rw [hdecomp] at hEq
      linarith
    have hsum_d : (l.map fun f : ℕ =>
        (1 / (l.length : ℝ) - (f : ℝ) / (l.sum : ℝ))
          - (f : ℝ) / (l.sum : ℝ)
              * Real.log (((l.length : ℝ) * ((f : ℝ) / (l.sum : ℝ)))⁻¹)).sum
        = 0 := by
      rw [list_sum_map_sub, hsum_rhs, hgibbs0]
      ring
    have hd_nonneg : ∀ x ∈ (l.map fun f : ℕ =>
        (1 / (l.length : ℝ) - (f : ℝ) / (l.sum : ℝ))
          - (f : ℝ) / (l.sum : ℝ)
              * Real.log (((l.length : ℝ) * ((f : ℝ) / (l.sum : ℝ)))⁻¹)),
        0 ≤ x := by
      intro x hx
      rcases List.mem_map.mp hx with ⟨f, hf, rfl⟩
      have := hterm f hf
      linarith
    have hda := List.all_zero_of_le_zero_le_of_sum_eq_zero hd_nonneg hsum_d
      (List.mem_map.mpr ⟨a, ha, rfl⟩)
    have hpa := hp_pos a ha
    have hxpos : (0 : ℝ) < ((l.length : ℝ) * ((a : ℝ) / (l.sum : ℝ)))⁻¹ := by
      positivity
    have hav : ((a : ℝ)) ≠ 0 := by
      have := hpos a ha
      positivity
    have hx1 : ((l.length : ℝ) * ((a : ℝ) / (l.sum : ℝ)))⁻¹ = 1 := by
      by_contra hxne
      have hstrict := Real.log_lt_sub_one_of_pos hxpos hxne
      have h2 := mul_lt_mul_of_pos_left hstrict hpa
      have h3 := gibbs_term_id (l.sum : ℝ) (l.length : ℝ) (a : ℝ)
        (ne_of_gt hSpos) (ne_of_gt hnpos) hav
      linarith
    rw [inv_eq_one] at hx1
    have h5 : (l.length : ℝ) * ((a : ℝ) / (l.sum : ℝ)) * (l.sum : ℝ)
        = (l.sum : ℝ) := by
      rw [hx1]
      ring
    have h6 : (l.length : ℝ) * ((a : ℝ) / (l.sum : ℝ)) * (l.sum : ℝ)
        = (a : ℝ) * (l.length : ℝ) := by
      rw [mul_assoc, div_mul_cancel₀ _ (ne_of_gt hSpos)]
      ring
    linarith [h5, h6]

/--
Claim C3, counterexample.  With exactly one distinct tag,
`analisis_cobertura_tematica` divides `0.0` by `log2(1) = 0.0` with no
guard: the index is a float NaN (modelled `none`), not the 0 the claim
requires for fewer than 2 distinct tags.  (The dashboard variant does
guard this case — see the amended theorem.)
-/
theorem C3_counterexample :
    diversidadAvanzado [5] = none ∧ diversidadAvanzado [5] ≠ some (0 : ℝ) := by
  constructor
  · simp [diversidadAvanzado]
  · simp [diversidadAvanzado]

/--
Claim C3, amended.  For a positive raw-tag frequency table: the dashboard
variant (`analizar_cobertura`) returns 0 when fewer than 2 distinct tags
exist, while the batch variant (`analisis_cobertura_tematica`) performs
the division unguarded and produces an undefined (NaN) index there; with
2 or more distinct tags the two agree and equal Shannon entropy (base 2)
divided by the maximum entropy `log2(n)` and scaled to 0–100; the index is
always within [0, 100]; and it equals 100 only when all tag frequencies
are exactly equal.
-/
theorem C3_diversidad (l : List ℕ) (hpos : ∀ f ∈ l, 0 < f) :
    (l.length ≤ 1 → diversidadDashboard l = 0 ∧ diversidadAvanzado l = none)
    ∧ (0 ≤ diversidadDashboard l ∧ diversidadDashboard l ≤ 100)
    ∧ (2 ≤ l.length →
        diversidadAvanzado l = some (diversidadDashboard l)
        ∧ diversidadDashboard l
            = shannonEntropy2 l / Real.logb 2 (l.length : ℝ) * 100)
    ∧ (diversidadDashboard l = 100 → ∀ a ∈ l, ∀ b ∈ l, a = b) := by
  have hlog2 : (0 : ℝ) < Real.log 2 := Real.log_pos (by norm_num)
  -- the common closed form when at least two tags exist
  have hform : 1 < l.length →
      diversidadDashboard l
        = (l.map fun f : ℕ => Real.negMulLog ((f : ℝ) / (l.sum : ℝ))).sum
            / Real.log (l.length : ℝ) * 100 := by
    intro hlen
    have hn1 : (1 : ℝ) < (l.length : ℝ) := by exact_mod_cast hlen
    have hlogn : (0 : ℝ) < Real.log (l.length : ℝ) := Real.log_pos hn1
    unfold diversidadDashboard shannonEntropy2 probList
    rw [if_pos hlen, Real.logb, List.map_map]
    have hcomp : (Real.negMulLog ∘ fun f : ℕ => (f : ℝ) / (l.sum : ℝ))
        = fun f : ℕ => Real.negMulLog ((f : ℝ) / (l.sum : ℝ)) := rfl
    rw [hcomp]
    field_simp
  have hnonneg : 1 < l.length →
      0 ≤ (l.map fun f : ℕ => Real.negMulLog ((f : ℝ) / (l.sum : ℝ))).sum := by
    intro hlen
    apply List.sum_nonneg
    intro x hx
    rcases List.mem_map.mp hx with ⟨f, hf, rfl⟩
    have hne : l ≠ [] := by
      intro h
      rw [h] at hlen
      simp at hlen
    have hSpos : (0 : ℝ) < (l.sum : ℝ) := by
      have : 0 < l.sum := List.sum_pos l hpos hne
      exact_mod_cast this
    apply Real.negMulLog_nonneg
    · positivity
    · rw [div_le_one hSpos]
      have : f ≤ l.sum := List.single_le_sum (fun x _ => Nat.zero_le x) f hf
      exact_mod_cast this
  refine ⟨?_, ?_, ?_, ?_⟩
  · intro hlen
    have h1 : ¬(1 < l.length) := by omega
    constructor
    · unfold diversidadDashboard
      rw [if_neg h1]
    · unfold diversidadAvanzado
      rw [if_neg h1]
  · by_cases hlen : 1 < l.length
    · have hn1 : (1 : ℝ) < (l.length : ℝ) := by exact_mod_cast hlen
      have hlogn : (0 : ℝ) < Real.log (l.length : ℝ) := Real.log_pos hn1
      have hge := hnonneg hlen
      have hle := (gibbs_list l hpos (by omega)).1
      rw [hform hlen]
      constructor
      · positivity
      · have hdiv : (l.map fun f : ℕ =>
            Real.negMulLog ((f : ℝ) / (l.sum : ℝ))).sum
              / Real.log (l.length : ℝ) ≤ 1 := by
          rw [div_le_one hlogn]
          exact hle
        nlinarith
    · unfold diversidadDashboard
      rw [if_neg hlen]
      norm_num
  · intro hlen
    have h1 : 1 < l.length := by omega
    constructor
    · unfold diversidadAvanzado diversidadDashboard
      rw [if_pos h1, if_pos h1]
    · unfold diversidadDashboard
      rw [if_pos h1]
  · intro h100 a ha b hb
    have hlen : 1 < l.length := by
      by_contra h1
      have := h100
      unfold diversidadDashboard at this
      rw [if_neg h1] at this
      norm_num at this
    have hn1 : (1 : ℝ) < (l.length : ℝ) := by exact_mod_cast hlen
    have hlogn : (0 : ℝ) < Real.log (l.length : ℝ) := Real.log_pos hn1
    rw [hform hlen] at h100
    have hEq : (l.map fun f : ℕ => Real.negMulLog ((f : ℝ) / (l.sum : ℝ))).sum
        = Real.log (l.length : ℝ) := by
      have h100s : (l.map fun f : ℕ => Real.negMulLog ((f : ℝ) / (l.sum : ℝ))).sum
          / Real.log (l.length : ℝ) * 100 = 1 * 100 := by
        rw [h100]
        norm_num
      have h2 := mul_right_cancel₀ (by norm_num : (100 : ℝ) ≠ 0) h100s
      rw [div_eq_one_iff_eq (ne_of_gt hlogn)] at h2
      exact h2
    have heach := (gibbs_list l hpos (by omega)).2 hEq
    have hae := heach a ha
    have hbe := heach b hb
    have hnne : ((l.length : ℝ)) ≠ 0 := by positivity
    have : (a : ℝ) = (b : ℝ) := by
      have h3 : (a : ℝ) * (l.length : ℝ) = (b : ℝ) * (l.length : ℝ) := by
        rw [hae, hbe]
      exact mul_right_cancel₀ hnne h3
    exact_mod_cast this

/--
Claim C3, witness.  The amended theorem applied at the concrete frequency
table `[2, 3]`: the index is within bounds, and the two variants agree.
-/
theorem C3_witness :
    (0 ≤ diversidadDashboard [2, 3] ∧ diversidadDashboard [2, 3] ≤ 100)
    ∧ diversidadAvanzado [2, 3] = some (diversidadDashboard [2, 3])
    ∧ diversidadAvanzado [5] = none :=
  ⟨(C3_diversidad [2, 3] (by decide)).2.1,
   ((C3_diversidad [2, 3] (by decide)).2.2.1 (by decide)).1,
   ((C3_diversidad [5] (by decide)).1 (by decide)).2⟩

end AnalisisCurricular
